import Mathlib

/-!
Verification development for the rss-news-analyzer repository.

Shallow embedding of the core pipeline:
* `src/utils/rss_utils.py` — lexical tagger (`extract_news_keywords`,
  `extract_companies_from_text`);
* `src/utils/cache_manager.py` — TTL cache (`read_cache`, `_is_cache_valid`);
* `src/content/rss_feed_service.py` — date-window filtering
  (`get_recent_articles`), snapshot (de)serialization, `refresh_all_feeds`;
* `src/analytics/news_analyzer.py` — trend scoring
  (`_calculate_trend_score`, `analyze_trending_topics`), spike detection
  (`detect_news_spikes`), company rollups and `suggest_timely_topics`.

Modelling conventions:
* Python floats are modelled as `ℚ` (the arithmetic in scope is exact on
  the small fractions involved);
* `datetime` parsing plus subtraction from `datetime.now()` is abstracted
  by a parameter `parse : String → Option ℚ` sending a `published` string
  to the number of hours elapsed since that timestamp (negative for a
  timestamp in the future), `none` when parsing (or the aware/naive
  subtraction) raises;
* Python `list(set(...))` results and dict key order are determinized by a
  first-occurrence `dedupFirst`;
* the Python stable `sort(key=..., reverse=True)` is modelled by the stable
  insertion sort `stableSortDesc`.
-/

set_option linter.unusedVariables false

/-! ## Generic helpers -/

/-- Python `str.lower()` restricted to ASCII, as a kernel-computable map. -/
def pyLower (s : String) : String := ⟨s.data.map Char.toLower⟩

/-- `listStartsWith l pat` : `pat` is a leading segment of `l`. -/
def listStartsWith : List Char → List Char → Bool
  | _, [] => true
  | [], _ :: _ => false
  | a :: as, b :: bs => a == b && listStartsWith as bs

/-- `listHasSub l pat` : `pat` occurs contiguously inside `l`. -/
def listHasSub : List Char → List Char → Bool
  | [], pat => listStartsWith [] pat
  | l@(_ :: t), pat => listStartsWith l pat || listHasSub t pat

/-- The Python `pat in s` substring test. -/
def strContainsSub (s pat : String) : Bool := listHasSub s.data pat.data

/-- Auxiliary for `dedupFirst`: drop elements already in `seen`. -/
def dedupFirstAux {α : Type} [DecidableEq α] (seen : List α) : List α → List α
  | [] => []
  | a :: l => if a ∈ seen then dedupFirstAux seen l else a :: dedupFirstAux (a :: seen) l

/-- Deduplication keeping the first occurrence of each element, matching
Python dict/`Counter` insertion order (and determinizing `list(set(...))`). -/
def dedupFirst {α : Type} [DecidableEq α] (l : List α) : List α := dedupFirstAux [] l

/-- One step of stable descending insertion sort: `x` is placed after every
element whose key is ≥ its own. -/
def insertDesc {α β : Type} [LinearOrder β] (key : α → β) (x : α) : List α → List α
  | [] => [x]
  | y :: ys => if key x ≤ key y then y :: insertDesc key x ys else x :: y :: ys

/-- Stable sort, descending by `key`: ties keep the input order.  Models
the Python `sorted(..., key=..., reverse=True)` / `list.sort(...)`. -/
def stableSortDesc {α β : Type} [LinearOrder β] (key : α → β) (l : List α) : List α :=
  l.foldl (fun acc x => insertDesc key x acc) []

/-- An ASCII apostrophe, kept out of string literals. -/
def apos : String := Char.toString (Char.ofNat 39)

/-! ## Lexical tagger (`src/utils/rss_utils.py`) -/

/-- The fixed tech/AI vocabulary of `extract_news_keywords`. -/
def default_keywords : List String :=
  ["artificial intelligence", "ai", "machine learning", "ml", "deep learning",
   "agentic ai", "agentic", "ai agents", "ai agent", "autonomous ai", "agent",
   "neural network", "nlp", "computer vision", "data science", "analytics",
   "big data", "python", "programming", "algorithm", "automation",
   "cloud computing", "aws", "azure", "gcp", "blockchain", "cryptocurrency",
   "startup", "venture capital", "funding", "ipo", "acquisition",
   "cybersecurity", "privacy", "gdpr", "regulation", "policy"]

/-- `extract_news_keywords(text, predefined_keywords)`: lower-case the text
once, keep each predefined keyword whose lower-cased form occurs, add each
default-vocabulary term found the same way, and deduplicate. -/
def extract_news_keywords (text : String) (predefined_keywords : List String) : List String :=
  if text = "" then []
  else
    let text_lower := pyLower text
    let fromPredefined := predefined_keywords.filter fun kw => strContainsSub text_lower (pyLower kw)
    let fromDefault := default_keywords.filter fun kw => strContainsSub text_lower kw
    dedupFirst (fromPredefined ++ fromDefault)

/-- The fixed roster of well-known organizations in `extract_companies_from_text`. -/
def tech_companies : List String :=
  ["Google", "Apple", "Microsoft", "Amazon", "Meta", "Facebook",
   "Tesla", "Netflix", "Spotify", "Uber", "Airbnb", "Twitter", "X",
   "LinkedIn", "Instagram", "YouTube", "OpenAI", "Anthropic",
   "IBM", "Oracle", "Salesforce", "Adobe", "Nvidia", "Intel",
   "AMD", "Qualcomm", "Samsung", "Sony", "Huawei", "Xiaomi"]

/-- `extract_companies_from_text(text)`: case-sensitive substring match of
each roster name, deduplicated. -/
def extract_companies_from_text (text : String) : List String :=
  if text = "" then []
  else dedupFirst (tech_companies.filter fun company => strContainsSub text company)

/-! ## Data model (`src/content/rss_feed_service.py`, `src/analytics/news_analyzer.py`) -/

/-- `NewsArticle` dataclass; `__post_init__` turns `None` keyword/company
lists into `[]`, so the lists are total here. -/
structure NewsArticle where
  id : String
  title : String
  description : String
  url : String
  published : String
  source : String
  feed_id : String
  keywords : List String := []
  sentiment : Option String := none
  companies : List String := []
deriving DecidableEq

/-- Opaque stand-in for the free-form `metadata` dictionary. -/
abbrev Metadata := List (String × String)

/-- `FeedData` dataclass. -/
structure FeedData where
  feed_id : String
  feed_name : String
  feed_url : String
  feed_type : String
  metadata : Metadata
  articles : List NewsArticle
  last_updated : String
  total_articles : ℕ
deriving DecidableEq

/-- `TrendData` dataclass. -/
structure TrendData where
  keyword : String
  count : ℕ
  articles : List NewsArticle
  first_seen : String
  last_seen : String
  sources : List String
  companies : List String
  trend_score : ℚ
deriving DecidableEq

/-- `NewsInsight` dataclass. -/
structure NewsInsight where
  type : String
  title : String
  description : String
  confidence : ℚ
  evidence : List String
  timestamp : String
deriving DecidableEq

/-- Feed configuration record (`src/config/rss_config.py`), the fields the
core consumes. -/
structure FeedConfig where
  id : String
  name : String
  url : String
  type : String := "standard_rss"
  keywords : List String := []
  update_frequency : String := "1h"
  enabled : Bool := true
deriving DecidableEq

/-! ## Cache store (`src/utils/cache_manager.py`) -/

/-- A JSON value as far as `read_cache` distinguishes them: a string, or
any non-string value (number, list, object, ...). -/
inductive PyVal where
  | str (s : String)
  | other
deriving DecidableEq

/-- A parsed top-level cache object: its optional `"timestamp"` and
`"data"` entries. -/
structure CacheRecord where
  timestamp : Option PyVal
  data : Option PyVal
deriving DecidableEq

/-- The state of the backing cache file as seen by `read_cache`:
missing, unreadable JSON (`json.load` raises `JSONDecodeError`), readable
JSON that is not an object (so `cache_data.get` raises `AttributeError`),
or a parsed object. -/
inductive CacheFile where
  | missing
  | badJson
  | nonDict
  | record (rec : CacheRecord)
deriving DecidableEq

/-- The string handed to `datetime.fromisoformat` by `_is_cache_valid`:
`cache_data.get("timestamp", "")`.  `none` when the stored value is a
non-string, in which case `fromisoformat` raises `TypeError`. -/
def recTimestampStr : CacheRecord → Option String
  | ⟨some (.str s), _⟩ => some s
  | ⟨none, _⟩ => some ""
  | ⟨some .other, _⟩ => none

/-- The outcome of `datetime.fromisoformat` on a timestamp string, as far
as `_is_cache_valid` distinguishes them: a naive datetime at time `t`
(so `datetime.now() - cache_time` succeeds, with `t` on the same clock as
`now`); an offset-aware datetime, for which the naive-minus-aware
subtraction `datetime.now() - cache_time` raises `TypeError`; or a
`ValueError` parse failure. -/
inductive TsParse where
  | naive (t : ℚ)
  | aware
  | fail
deriving DecidableEq

/-- `_is_cache_valid(cache_data)`.  A parse failure (`ValueError`) is
caught by `except (ValueError, KeyError)` and yields `False`; both a
non-string timestamp (`fromisoformat` raises `TypeError`) and a string
timestamp parsing to an offset-aware datetime (the subtraction
`datetime.now() - cache_time` raises `TypeError`) escape that clause. -/
def is_cache_valid (parseTime : String → TsParse) (now ttl_hours : ℚ)
    (rec : CacheRecord) : Except String Bool :=
  match recTimestampStr rec with
  | none => .error "TypeError"
  | some s =>
    match parseTime s with
    | .fail => .ok false
    | .aware => .error "TypeError"
    | .naive t => .ok (decide (now - t < ttl_hours))

/-- `read_cache()`.  A missing file or a `JSONDecodeError` yields `none`;
valid JSON that is not an object raises `AttributeError` inside
`_is_cache_valid`, and the two `TypeError` paths of `_is_cache_valid`
propagate as well (all uncaught by `except (JSONDecodeError, ValueError,
KeyError)`); otherwise the record is returned iff `_is_cache_valid`.
OS-level `open` failures are outside this model of the record content. -/
def read_cache (parseTime : String → TsParse) (now ttl_hours : ℚ)
    (file : CacheFile) : Except String (Option CacheRecord) :=
  match file with
  | .missing => .ok none
  | .badJson => .ok none
  | .nonDict => .error "AttributeError"
  | .record rec =>
    match is_cache_valid parseTime now ttl_hours rec with
    | .error e => .error e
    | .ok b => .ok (if b then some rec else none)

/-! ## Snapshot (de)serialization (`src/content/rss_feed_service.py`) -/

/-- The dictionary `dataclasses.asdict` produces for one article. -/
structure SerializedArticle where
  id : String
  title : String
  description : String
  url : String
  published : String
  source : String
  feed_id : String
  keywords : List String
  sentiment : Option String
  companies : List String
deriving DecidableEq

/-- One entry of the `"articles"` list built by `_serialize_feed_data`. -/
def serializeArticle (a : NewsArticle) : SerializedArticle :=
  ⟨a.id, a.title, a.description, a.url, a.published, a.source, a.feed_id,
   a.keywords, a.sentiment, a.companies⟩

/-- `NewsArticle(**article_data)` in `_deserialize_feed_data`. -/
def deserializeArticle (s : SerializedArticle) : NewsArticle :=
  ⟨s.id, s.title, s.description, s.url, s.published, s.source, s.feed_id,
   s.keywords, s.sentiment, s.companies⟩

/-- The dictionary `_serialize_feed_data` writes into the cache payload. -/
structure SerializedFeedData where
  feed_id : String
  feed_name : String
  feed_url : String
  feed_type : String
  metadata : Metadata
  articles : List SerializedArticle
  last_updated : String
  total_articles : ℕ
deriving DecidableEq

/-- `_serialize_feed_data(feed_data)`. -/
def serialize_feed_data (fd : FeedData) : SerializedFeedData :=
  ⟨fd.feed_id, fd.feed_name, fd.feed_url, fd.feed_type, fd.metadata,
   fd.articles.map serializeArticle, fd.last_updated, fd.total_articles⟩

/-- `_deserialize_feed_data(data)`. -/
def deserialize_feed_data (d : SerializedFeedData) : FeedData :=
  ⟨d.feed_id, d.feed_name, d.feed_url, d.feed_type, d.metadata,
   d.articles.map deserializeArticle, d.last_updated, d.total_articles⟩

/-! ## Date-window filtering (`get_recent_articles`) -/

/-- The two-stage date parse of `get_recent_articles`: try
`datetime.fromisoformat` (`p1`), then `email.utils.parsedate_to_datetime`
(`p2`).  Each parser maps a `published` string to hours elapsed since that
timestamp; `none` covers a parse failure or a later aware/naive
`TypeError` in the comparison (both fall into the same `hours > 24`
heuristic in the source). -/
def parsedHoursAgo (p1 p2 : String → Option ℚ) (s : String) : Option ℚ :=
  match p1 s with
  | some h => some h
  | none => p2 s

/-- Per-article inclusion decision of `get_recent_articles`: a missing or
unparseable `published` is included exactly when `hours > 24`; a parseable
one is included iff its timestamp is at or after `now - hours`, i.e. iff
its hours-ago value is at most `hours`. -/
def includeRecent (p1 p2 : String → Option ℚ) (hours : ℕ) (a : NewsArticle) : Bool :=
  if a.published = "" then decide (24 < hours)
  else
    match parsedHoursAgo p1 p2 a.published with
    | some h => decide (h ≤ (hours : ℚ))
    | none => decide (24 < hours)

/-- The windowing-and-sorting core of `get_recent_articles(feed_id, hours)`
applied to the article list of the snapshot: filter by `includeRecent`, then
sort newest first by the raw `published` string (stable, descending). -/
def get_recent_articles_filter (p1 p2 : String → Option ℚ) (hours : ℕ)
    (articles : List NewsArticle) : List NewsArticle :=
  stableSortDesc (fun a => a.published) (articles.filter (includeRecent p1 p2 hours))

/-! ## Batch refresh (`refresh_all_feeds`) -/

/-- The result dictionary of `refresh_all_feeds`. -/
structure RefreshResult where
  total_feeds : ℕ
  successful : ℕ
  failed : ℕ
  errors : List String
deriving DecidableEq

/-- One iteration of the `refresh_all_feeds` loop: a successful
`fetch_feed` increments `successful`, otherwise `failed` is incremented
and one error string is appended. -/
def refreshStep (fetch : FeedConfig → Option FeedData) (r : RefreshResult)
    (fc : FeedConfig) : RefreshResult :=
  match fetch fc with
  | some _ => { r with successful := r.successful + 1 }
  | none =>
    { r with
      failed := r.failed + 1
      errors := r.errors ++ ["Failed to refresh feed: " ++ fc.id] }

/-- `refresh_all_feeds()` after the enabled-feed list has been obtained.
`fetch` abstracts `fetch_feed(feed_id, force_refresh=True)` (which
swallows its own exceptions and returns `None` on failure). -/
def refresh_all_feeds (enabled : List FeedConfig) (fetch : FeedConfig → Option FeedData) :
    RefreshResult :=
  enabled.foldl (refreshStep fetch)
    { total_feeds := enabled.length, successful := 0, failed := 0, errors := [] }

/-! ## Trend engine (`src/analytics/news_analyzer.py`) -/

/-- The text handed to the tagger: `f"{article.title} {article.description}"`. -/
def articleText (a : NewsArticle) : String := a.title ++ " " ++ a.description

/-- The keywords the analyzer extracts for one article (no predefined
keywords are passed from the analyzer). -/
def articleKeywords (a : NewsArticle) : List String :=
  extract_news_keywords (articleText a) []

/-- The companies the analyzer extracts for one article. -/
def articleCompanies (a : NewsArticle) : List String :=
  extract_companies_from_text (articleText a)

/-- `keyword_articles[kw]`: the group of articles tagged with `kw`, in
article order (each article contributes at most once per keyword, since
`extract_news_keywords` deduplicates). -/
def keywordGroup (articles : List NewsArticle) (kw : String) : List NewsArticle :=
  articles.filter fun a => decide (kw ∈ articleKeywords a)

/-- `_count_keywords_in_articles(articles)[kw]`: the `Counter` value for
`kw`, i.e. the number of articles whose extracted keywords contain it. -/
def keywordCount (articles : List NewsArticle) (kw : String) : ℕ :=
  (keywordGroup articles kw).length

/-- The keywords appearing in at least one article, in first-appearance
order (= `defaultdict`/`Counter` key insertion order). -/
def allKeywords (articles : List NewsArticle) : List String :=
  dedupFirst (articles.flatMap articleKeywords)

/-- `frequency_score = min(len(articles) / 10.0, 1.0)`. -/
def frequencyFactor (articles : List NewsArticle) : ℚ :=
  min ((articles.length : ℚ) / 10) 1

/-- The list of per-article recency scores in `_calculate_trend_score`:
an article with an empty `published`, an unparseable one, or (when
`hours = 0`) a `ZeroDivisionError` is skipped; otherwise it contributes
`max(0, 1 - hours_ago / hours)`. -/
def recencyScores (parse : String → Option ℚ) (hours : ℕ)
    (articles : List NewsArticle) : List ℚ :=
  articles.filterMap fun a =>
    if a.published = "" then none
    else
      match parse a.published with
      | none => none
      | some hoursAgo =>
        if hours = 0 then none else some (max 0 (1 - hoursAgo / (hours : ℚ)))

/-- `recency_score`: the mean of the per-article scores, `0` when none. -/
def recencyFactor (parse : String → Option ℚ) (hours : ℕ)
    (articles : List NewsArticle) : ℚ :=
  let rs := recencyScores parse hours articles
  if rs = [] then 0 else rs.sum / (rs.length : ℚ)

/-- `source_diversity_score = min(len(set(sources)) / 5.0, 1.0)`. -/
def diversityFactor (articles : List NewsArticle) : ℚ :=
  min (((dedupFirst (articles.map (·.source))).length : ℚ) / 5) 1

/-- `_calculate_trend_score(articles, hours)`. -/
def calculate_trend_score (parse : String → Option ℚ)
    (articles : List NewsArticle) (hours : ℕ) : ℚ :=
  if articles = [] then 0
  else
    frequencyFactor articles * 0.4 + recencyFactor parse hours articles * 0.4 +
      diversityFactor articles * 0.2

/-- The `TrendData` built for one surviving keyword in
`analyze_trending_topics`. -/
def mkTrendData (parse : String → Option ℚ) (articles : List NewsArticle)
    (hours : ℕ) (kw : String) : TrendData :=
  let group := keywordGroup articles kw
  let dates := (group.map (·.published)).filter fun s => decide (s ≠ "")
  { keyword := kw
    count := group.length
    articles := group
    first_seen := match dates with | [] => "" | d :: ds => ds.foldl min d
    last_seen := match dates with | [] => "" | d :: ds => ds.foldl max d
    sources := dedupFirst (group.map (·.source))
    companies := dedupFirst (group.flatMap articleCompanies)
    trend_score := calculate_trend_score parse group hours }

/-- `analyze_trending_topics(hours, min_mentions)` applied to the window
article list: group by keyword, drop groups below `min_mentions`, build
`TrendData`, sort by `trend_score` descending. -/
def analyze_trending_topics (parse : String → Option ℚ)
    (articles : List NewsArticle) (hours min_mentions : ℕ) : List TrendData :=
  if articles = [] then []
  else
    stableSortDesc (fun t => t.trend_score)
      ((allKeywords articles).filterMap fun kw =>
        if min_mentions ≤ (keywordGroup articles kw).length then
          some (mkTrendData parse articles hours kw)
        else none)

/-- The spike `NewsInsight` built by `detect_news_spikes` (float `"%.2f"`
formatting in the evidence strings is abstracted by `toString`). -/
def mkSpikeInsight (kw : String) (recent_count historical_count : ℕ)
    (hours comparison_hours : ℕ) (spike_ratio : ℚ) (nowS : String) : NewsInsight :=
  { type := "spike"
    title := "News spike detected: " ++ kw
    description :=
      apos ++ kw ++ apos ++ " mentioned " ++ toString recent_count ++
        " times in last " ++ toString hours ++ "h vs " ++
        toString historical_count ++ " times in last " ++
        toString comparison_hours ++ "h"
    confidence := min (spike_ratio / 10) 1
    evidence :=
      ["Spike ratio: " ++ toString spike_ratio ++ "x",
       "Recent mentions: " ++ toString recent_count]
    timestamp := nowS }

/-- `detect_news_spikes(hours, comparison_hours)` applied to the two
window article lists. -/
def detect_news_spikes (recent historical : List NewsArticle)
    (hours comparison_hours : ℕ) (nowS : String) : List NewsInsight :=
  if recent = [] ∨ historical = [] then []
  else
    stableSortDesc (fun i => i.confidence)
      ((allKeywords recent).filterMap fun kw =>
        let recent_count := keywordCount recent kw
        let historical_count := keywordCount historical kw
        let recent_rate : ℚ := (recent_count : ℚ) / (hours : ℚ)
        let historical_rate : ℚ := (historical_count : ℚ) / (comparison_hours : ℚ)
        if 0 < historical_rate then
          let spike_ratio := recent_rate / historical_rate
          if 2 < spike_ratio ∧ 3 ≤ recent_count then
            some (mkSpikeInsight kw recent_count historical_count hours
              comparison_hours spike_ratio nowS)
          else none
        else none)

/-- One entry of the `top_companies` list of `analyze_company_mentions`. -/
structure CompanyMention where
  company : String
  mentions : ℕ
  sources : List String
  articles : ℕ
deriving DecidableEq

/-- `company_mentions[c]`: number of articles mentioning company `c`. -/
def companyCount (articles : List NewsArticle) (c : String) : ℕ :=
  (articles.filter fun a => decide (c ∈ articleCompanies a)).length

/-- The `top_companies` field of `analyze_company_mentions(hours)`:
`Counter.most_common(10)` = stable descending sort of the counter in key
insertion order, truncated to 10. -/
def top_companies (articles : List NewsArticle) : List CompanyMention :=
  if articles = [] then []
  else
    ((stableSortDesc (fun c => companyCount articles c)
        (dedupFirst (articles.flatMap articleCompanies))).take 10).map
      fun c =>
        { company := c
          mentions := companyCount articles c
          sources := dedupFirst ((articles.filter fun a => decide (c ∈ articleCompanies a)).map (·.source))
          articles := companyCount articles c }

/-- The fixed phrase table of `_suggest_topic_angle`. -/
def angleTable : List (String × String) :=
  [("ai", "The AI revolution: What" ++ apos ++ "s happening now and what" ++ apos ++ "s next"),
   ("artificial intelligence", "AI breakthroughs and their real-world impact"),
   ("machine learning", "Machine learning trends shaping the future"),
   ("data science", "Data science innovations and applications"),
   ("startup", "Startup landscape analysis and emerging opportunities"),
   ("funding", "Investment trends and what they mean for tech"),
   ("regulation", "Regulatory changes and their impact on innovation"),
   ("privacy", "Privacy concerns in the digital age"),
   ("cybersecurity", "Cybersecurity threats and defensive strategies"),
   ("agentic ai", "The rise of autonomous AI agents and their implications"),
   ("automation", "Automation trends and their impact on industries")]

/-- `_suggest_topic_angle(keyword, articles)`. -/
def suggest_topic_angle (keyword : String) (articles : List NewsArticle) : String :=
  if articles = [] then "Explore the latest developments in " ++ keyword
  else
    match angleTable.lookup (pyLower keyword) with
    | some angle => angle
    | none => "Deep dive into " ++ keyword ++ ": trends, challenges, and opportunities"

/-- The `evidence` sub-dictionaries of the three suggestion shapes. -/
inductive Evidence where
  | trend (mentions : ℕ) (sources companies : List String)
      (sample_articles : List (String × String × String))
  | spike (confidence : ℚ) (details : List String)
  | company (mentions : ℕ) (sources : List String)
deriving DecidableEq

/-- A suggestion record of `suggest_timely_topics`. -/
structure Suggestion where
  type : String
  topic : String
  reason : String
  urgency : String
  evidence : Evidence
  suggested_angle : String
deriving DecidableEq

/-- `urgency_order.get(urgency, 0)`. -/
def urgencyRank (u : String) : ℕ :=
  if u = "high" then 3 else if u = "medium" then 2 else if u = "low" then 1 else 0

/-- The suggestion built from one trending topic. -/
def mkTrendSuggestion (t : TrendData) : Suggestion :=
  { type := "trending_topic"
    topic := t.keyword
    reason := "Trending in news with " ++ toString t.count ++ " mentions"
    urgency := if 0.7 < t.trend_score then "high" else "medium"
    evidence :=
      .trend t.count t.sources t.companies
        ((t.articles.take 3).map fun a => (a.title, a.source, a.url))
    suggested_angle := suggest_topic_angle t.keyword t.articles }

/-- The suggestion built from one spike insight. -/
def mkSpikeSuggestion (s : NewsInsight) : Suggestion :=
  { type := "news_spike"
    topic := s.title.replace "News spike detected: " ""
    reason := s.description
    urgency := "high"
    evidence := .spike s.confidence s.evidence
    suggested_angle :=
      "Breaking down the recent surge in " ++
        s.title.replace "News spike detected: " "" ++ " news" }

/-- The suggestion built from the most-mentioned company. -/
def mkCompanySuggestion (c : CompanyMention) : Suggestion :=
  { type := "company_focus"
    topic := c.company ++ " in the news"
    reason := "Most mentioned company with " ++ toString c.mentions ++ " mentions"
    urgency := "medium"
    evidence := .company c.mentions c.sources
    suggested_angle :=
      "Analysis of " ++ c.company ++ apos ++ "s recent developments and their impact" }

/-- The suggestion list of `suggest_timely_topics` in insertion order:
top 5 trends, then top 3 spikes, then the top company (if any).
`getAllRecent` abstracts `get_all_recent_articles`. -/
def suggestion_insertion_list (parse : String → Option ℚ)
    (getAllRecent : ℕ → List NewsArticle) (hours : ℕ) (nowS : String) : List Suggestion :=
  ((analyze_trending_topics parse (getAllRecent hours) hours 3).take 5).map mkTrendSuggestion
    ++ ((detect_news_spikes (getAllRecent hours) (getAllRecent 168) hours 168 nowS).take 3).map
        mkSpikeSuggestion
    ++ (match top_companies (getAllRecent hours) with
        | [] => []
        | c :: _ => [mkCompanySuggestion c])

/-- `suggest_timely_topics(hours)`: the insertion list, stably sorted by
urgency rank descending. -/
def suggest_timely_topics (parse : String → Option ℚ)
    (getAllRecent : ℕ → List NewsArticle) (hours : ℕ) (nowS : String) : List Suggestion :=
  stableSortDesc (fun s => urgencyRank s.urgency)
    (suggestion_insertion_list parse getAllRecent hours nowS)

/-! ## Concrete inputs for witnesses and counterexamples -/

/-- A date parser that fails on every string. -/
def parseNone : String → Option ℚ := fun _ => none

/-- A date parser mapping the string `"p"` to one hour ago. -/
def parseP : String → Option ℚ := fun s => if s = "p" then some 1 else none

/-- A timestamp parser mapping the string `"ts"` to a naive datetime at
time 0 and failing elsewhere. -/
def tsNaive : String → TsParse := fun s => if s = "ts" then .naive 0 else .fail

/-- A timestamp parser mapping the string `"aw"` to an offset-aware
datetime and failing elsewhere. -/
def tsAware : String → TsParse := fun s => if s = "aw" then .aware else .fail

/-- A timestamp parser that fails on every string. -/
def tsFail : String → TsParse := fun _ => .fail

/-- A date parser mapping the string `"future"` to 240 hours in the
future (as `datetime.fromisoformat` does for a future-dated ISO string,
`now - article_date` being negative). -/
def parseFut : String → Option ℚ := fun s => if s = "future" then some (-240) else none

/-- A minimal article with the given id, title and published string. -/
def mkArt (i title published : String) : NewsArticle :=
  { id := i, title := title, description := "", url := "u",
    published := published, source := "s", feed_id := "f" }

/-- Three articles about "ai", one hour old. -/
def artsAi3 : List NewsArticle := [mkArt "a1" "ai" "p", mkArt "a2" "ai" "p", mkArt "a3" "ai" "p"]

/-- Three articles about "ai", dated 240 hours in the future. -/
def artsFut : List NewsArticle :=
  [mkArt "b1" "ai" "future", mkArt "b2" "ai" "future", mkArt "b3" "ai" "future"]

/-- Five recent articles about "ai". -/
def artsAi5 : List NewsArticle :=
  [mkArt "r1" "ai" "p", mkArt "r2" "ai" "p", mkArt "r3" "ai" "p",
   mkArt "r4" "ai" "p", mkArt "r5" "ai" "p"]

/-- The historical window: the five recent "ai" articles plus one older one. -/
def artsAi6 : List NewsArticle := artsAi5 ++ [mkArt "h1" "ai" "old"]

/-- A single article about "ml" (no "ai" mention). -/
def artsMl : List NewsArticle := [mkArt "m1" "ml" "p"]

/-- An article with no published date. -/
def artNoDate : NewsArticle := mkArt "n1" "t" ""

/-- A single article, for the empty-trends instance. -/
def artsOne : List NewsArticle := [mkArt "o1" "ai" "p"]

/-- A default `TrendData` used only as a `headD` fallback. -/
def dummyTrend : TrendData :=
  { keyword := "", count := 0, articles := [], first_seen := "", last_seen := "",
    sources := [], companies := [], trend_score := 0 }

/-! ## Helper lemmas: `dedupFirst` -/

theorem mem_dedupFirstAux {α : Type} [DecidableEq α] (x : α) :
    ∀ (l seen : List α), x ∈ dedupFirstAux seen l ↔ x ∈ l ∧ x ∉ seen := by
  intro l
  induction l with
  | nil => intro seen; simp [dedupFirstAux]
  | cons a t ih =>
    intro seen
    by_cases ha : a ∈ seen
    · rw [dedupFirstAux, if_pos ha, ih]
      simp only [List.mem_cons]
      by_cases hxa : x = a
      · subst hxa; simp [ha]
      · simp [hxa]
    · rw [dedupFirstAux, if_neg ha]
      simp only [List.mem_cons, ih, List.mem_cons]
      by_cases hxa : x = a
      · subst hxa; simp [ha]
      · simp only [hxa, false_or]

theorem nodup_dedupFirstAux {α : Type} [DecidableEq α] :
    ∀ (l seen : List α), (dedupFirstAux seen l).Nodup := by
  intro l
  induction l with
  | nil => intro seen; simp [dedupFirstAux]
  | cons a t ih =>
    intro seen
    by_cases ha : a ∈ seen
    · rw [dedupFirstAux, if_pos ha]; exact ih seen
    · rw [dedupFirstAux, if_neg ha]
      refine List.nodup_cons.mpr ⟨fun hmem => ?_, ih (a :: seen)⟩
      exact ((mem_dedupFirstAux a t (a :: seen)).mp hmem).2 (List.mem_cons_self a seen)

theorem mem_dedupFirst {α : Type} [DecidableEq α] (x : α) (l : List α) :
    x ∈ dedupFirst l ↔ x ∈ l := by
  rw [dedupFirst, mem_dedupFirstAux]
  simp

theorem nodup_dedupFirst {α : Type} [DecidableEq α] (l : List α) :
    (dedupFirst l).Nodup := nodup_dedupFirstAux l []

/-! ## Helper lemmas: `stableSortDesc` -/

theorem insertDesc_perm {α β : Type} [LinearOrder β] (key : α → β) (x : α) (l : List α) :
    List.Perm (insertDesc key x l) (x :: l) := by
  induction l with
  | nil => exact List.Perm.refl _
  | cons y ys ih =>
    rw [insertDesc]
    by_cases h : key x ≤ key y
    · rw [if_pos h]
      exact (ih.cons y).trans (List.Perm.swap x y ys)
    · rw [if_neg h]

theorem foldl_insertDesc_perm {α β : Type} [LinearOrder β] (key : α → β) :
    ∀ (l acc : List α),
      List.Perm (l.foldl (fun acc x => insertDesc key x acc) acc) (acc ++ l) := by
  intro l
  induction l with
  | nil => intro acc; simp
  | cons x xs ih =>
    intro acc
    rw [List.foldl_cons]
    refine (ih _).trans ?_
    refine ((insertDesc_perm key x acc).append_right xs).trans ?_
    exact List.perm_middle.symm

theorem stableSortDesc_perm {α β : Type} [LinearOrder β] (key : α → β) (l : List α) :
    List.Perm (stableSortDesc key l) l := by
  simpa using foldl_insertDesc_perm key l []

theorem mem_stableSortDesc {α β : Type} [LinearOrder β] (key : α → β) (l : List α) (x : α) :
    x ∈ stableSortDesc key l ↔ x ∈ l := (stableSortDesc_perm key l).mem_iff

theorem insertDesc_pairwise {α β : Type} [LinearOrder β] (key : α → β) (x : α)
    {l : List α} (h : l.Pairwise (fun a b => key b ≤ key a)) :
    (insertDesc key x l).Pairwise (fun a b => key b ≤ key a) := by
  induction l with
  | nil => simp [insertDesc]
  | cons y ys ih =>
    rw [insertDesc]
    rcases List.pairwise_cons.mp h with ⟨hy, hys⟩
    by_cases hxy : key x ≤ key y
    · rw [if_pos hxy]
      refine List.pairwise_cons.mpr ⟨fun z hz => ?_, ih hys⟩
      rcases List.mem_cons.mp ((insertDesc_perm key x ys).subset hz) with rfl | hz
      · exact hxy
      · exact hy z hz
    · rw [if_neg hxy]
      have hyx : key y ≤ key x := le_of_not_le hxy
      refine List.pairwise_cons.mpr ⟨fun z hz => ?_, h⟩
      rcases List.mem_cons.mp hz with rfl | hz
      · exact hyx
      · exact le_trans (hy z hz) hyx

theorem foldl_insertDesc_pairwise {α β : Type} [LinearOrder β] (key : α → β) :
    ∀ (l acc : List α), acc.Pairwise (fun a b => key b ≤ key a) →
      (l.foldl (fun acc x => insertDesc key x acc) acc).Pairwise
        (fun a b => key b ≤ key a) := by
  intro l
  induction l with
  | nil => intro acc hacc; simpa using hacc
  | cons x xs ih =>
    intro acc hacc
    rw [List.foldl_cons]
    exact ih _ (insertDesc_pairwise key x hacc)

theorem stableSortDesc_pairwise {α β : Type} [LinearOrder β] (key : α → β) (l : List α) :
    (stableSortDesc key l).Pairwise (fun a b => key b ≤ key a) :=
  foldl_insertDesc_pairwise key l [] (by simp)

theorem insertDesc_filter {α β : Type} [LinearOrder β] (key : α → β) (c : β) (x : α) :
    ∀ {l : List α}, l.Pairwise (fun a b => key b ≤ key a) →
      (insertDesc key x l).filter (fun y => decide (key y = c)) =
        if key x = c then l.filter (fun y => decide (key y = c)) ++ [x]
        else l.filter (fun y => decide (key y = c)) := by
  intro l
  induction l with
  | nil =>
    intro _
    by_cases hx : key x = c
    · simp [insertDesc, List.filter, hx]
    · simp [insertDesc, List.filter, hx]
  | cons y ys ih =>
    intro h
    rcases List.pairwise_cons.mp h with ⟨hy, hys⟩
    rw [insertDesc]
    by_cases hxy : key x ≤ key y
    · rw [if_pos hxy, List.filter_cons, List.filter_cons, ih hys]
      by_cases hx : key x = c
      · by_cases hyc : key y = c
        · simp [hx, hyc]
        · simp [hx, hyc]
      · by_cases hyc : key y = c
        · simp [hx, hyc]
        · simp [hx, hyc]
    · rw [if_neg hxy]
      have hylt : key y < key x := lt_of_not_le hxy
      rw [List.filter_cons]
      by_cases hx : key x = c
      · have hnil : (y :: ys).filter (fun z => decide (key z = c)) = [] := by
          rw [List.filter_eq_nil_iff]
          intro z hz
          have hzy : key z ≤ key y := by
            rcases List.mem_cons.mp hz with rfl | hz
            · exact le_refl _
            · exact hy z hz
          have hzc : key z < c := hx ▸ lt_of_le_of_lt hzy hylt
          simp only [decide_eq_true_eq]
          exact ne_of_lt hzc
        simp [hx, hnil]
      · simp [hx]

theorem foldl_insertDesc_filter {α β : Type} [LinearOrder β] (key : α → β) (c : β) :
    ∀ (l acc : List α), acc.Pairwise (fun a b => key b ≤ key a) →
      (l.foldl (fun acc x => insertDesc key x acc) acc).filter
          (fun y => decide (key y = c)) =
        acc.filter (fun y => decide (key y = c)) ++ l.filter (fun y => decide (key y = c)) := by
  intro l
  induction l with
  | nil => intro acc _; simp
  | cons x xs ih =>
    intro acc hacc
    rw [List.foldl_cons, ih _ (insertDesc_pairwise key x hacc), insertDesc_filter key c x hacc,
      List.filter_cons]
    by_cases hx : key x = c
    · simp [hx, List.append_assoc]
    · simp [hx]

theorem stableSortDesc_filter {α β : Type} [LinearOrder β] (key : α → β) (l : List α) (c : β) :
    (stableSortDesc key l).filter (fun y => decide (key y = c)) =
      l.filter (fun y => decide (key y = c)) := by
  simpa using foldl_insertDesc_filter key c l [] (by simp)

/-! ## Helper lemmas: strings and sums -/

theorem string_append_left_cancel {s t u : String} (h : s ++ t = s ++ u) : t = u := by
  have hd : (s ++ t).data = (s ++ u).data := by rw [h]
  simp only [String.data_append] at hd
  exact String.ext (List.append_cancel_left hd)

theorem list_sum_le_length {l : List ℚ} (h : ∀ x ∈ l, x ≤ 1) : l.sum ≤ (l.length : ℚ) := by
  induction l with
  | nil => simp
  | cons x xs ih =>
    simp only [List.sum_cons, List.length_cons]
    have hx := h x (by simp)
    have hxs := ih fun y hy => h y (by simp [hy])
    push_cast
    linarith

/-! ## Helper lemmas: keyword grouping and counting -/

theorem mem_allKeywords (articles : List NewsArticle) (kw : String) :
    kw ∈ allKeywords articles ↔ ∃ a ∈ articles, kw ∈ articleKeywords a := by
  rw [allKeywords, mem_dedupFirst, List.mem_flatMap]

theorem mem_keywordGroup (articles : List NewsArticle) (kw : String) (a : NewsArticle) :
    a ∈ keywordGroup articles kw ↔ a ∈ articles ∧ kw ∈ articleKeywords a := by
  rw [keywordGroup, List.mem_filter]
  simp

theorem keywordGroup_ne_nil (articles : List NewsArticle) (kw : String)
    (h : kw ∈ allKeywords articles) : keywordGroup articles kw ≠ [] := by
  rw [mem_allKeywords] at h
  obtain ⟨a, ha, hk⟩ := h
  exact List.ne_nil_of_mem ((mem_keywordGroup articles kw a).mpr ⟨ha, hk⟩)

theorem keywordCount_pos (articles : List NewsArticle) (kw : String) :
    0 < keywordCount articles kw ↔ ∃ a ∈ articles, kw ∈ articleKeywords a := by
  rw [keywordCount, List.length_pos]
  constructor
  · intro h
    match hg : keywordGroup articles kw with
    | [] => exact absurd hg h
    | a :: t =>
      have ha : a ∈ keywordGroup articles kw := by rw [hg]; exact List.mem_cons_self a t
      exact ⟨a, (mem_keywordGroup articles kw a).mp ha⟩
  · rintro ⟨a, ha, hk⟩
    exact List.ne_nil_of_mem ((mem_keywordGroup articles kw a).mpr ⟨ha, hk⟩)

/-! ## Helper lemmas: trend-score factors -/

theorem frequencyFactor_nonneg (articles : List NewsArticle) :
    0 ≤ frequencyFactor articles := by
  rw [frequencyFactor]
  exact le_min (by positivity) (by norm_num)

theorem frequencyFactor_le_one (articles : List NewsArticle) :
    frequencyFactor articles ≤ 1 := min_le_right _ _

theorem diversityFactor_nonneg (articles : List NewsArticle) :
    0 ≤ diversityFactor articles := by
  rw [diversityFactor]
  exact le_min (by positivity) (by norm_num)

theorem diversityFactor_le_one (articles : List NewsArticle) :
    diversityFactor articles ≤ 1 := min_le_right _ _

theorem recencyScores_mem_nonneg (parse : String → Option ℚ) (hours : ℕ)
    (articles : List NewsArticle) (x : ℚ) (hx : x ∈ recencyScores parse hours articles) :
    0 ≤ x := by
  rw [recencyScores, List.mem_filterMap] at hx
  obtain ⟨a, _, hfa⟩ := hx
  split at hfa
  · cases hfa
  · split at hfa
    · cases hfa
    · split at hfa
      · cases hfa
      · cases hfa
        exact le_max_left 0 _

theorem recencyScores_mem_le_one (parse : String → Option ℚ) (hours : ℕ)
    (articles : List NewsArticle) (hh : 0 < hours)
    (hnn : ∀ a ∈ articles, ∀ q, parse a.published = some q → 0 ≤ q)
    (x : ℚ) (hx : x ∈ recencyScores parse hours articles) : x ≤ 1 := by
  rw [recencyScores, List.mem_filterMap] at hx
  obtain ⟨a, ha, hfa⟩ := hx
  split at hfa
  · cases hfa
  · split at hfa
    · cases hfa
    · rename_i hoursAgo heq
      split at hfa
      · cases hfa
      · cases hfa
        have hq0 : 0 ≤ hoursAgo := hnn a ha hoursAgo heq
        have hdiv : 0 ≤ hoursAgo / (hours : ℚ) := by positivity
        exact max_le (by norm_num) (by linarith)

theorem recencyFactor_nonneg (parse : String → Option ℚ) (hours : ℕ)
    (articles : List NewsArticle) : 0 ≤ recencyFactor parse hours articles := by
  rw [recencyFactor]
  by_cases h : recencyScores parse hours articles = []
  · simp [h]
  · simp only [h, if_false]
    have hsum : 0 ≤ (recencyScores parse hours articles).sum :=
      List.sum_nonneg (recencyScores_mem_nonneg parse hours articles)
    positivity

theorem recencyFactor_le_one (parse : String → Option ℚ) (hours : ℕ)
    (articles : List NewsArticle) (hh : 0 < hours)
    (hnn : ∀ a ∈ articles, ∀ q, parse a.published = some q → 0 ≤ q) :
    recencyFactor parse hours articles ≤ 1 := by
  rw [recencyFactor]
  by_cases h : recencyScores parse hours articles = []
  · simp [h]
  · simp only [h, if_false]
    have hlen : 0 < (recencyScores parse hours articles).length :=
      List.length_pos.mpr h
    have hsum : (recencyScores parse hours articles).sum ≤
        ((recencyScores parse hours articles).length : ℚ) :=
      list_sum_le_length (recencyScores_mem_le_one parse hours articles hh hnn)
    rw [div_le_one (by exact_mod_cast hlen)]
    exact hsum

theorem calculate_trend_score_bounds (parse : String → Option ℚ)
    (articles : List NewsArticle) (hours : ℕ) (hh : 0 < hours)
    (hnn : ∀ a ∈ articles, ∀ q, parse a.published = some q → 0 ≤ q) :
    0 ≤ calculate_trend_score parse articles hours ∧
      calculate_trend_score parse articles hours ≤ 1 := by
  rw [calculate_trend_score]
  by_cases h : articles = []
  · simp [h]
  · simp only [h, if_false]
    have f1 := frequencyFactor_nonneg articles
    have f2 := frequencyFactor_le_one articles
    have r1 := recencyFactor_nonneg parse hours articles
    have r2 := recencyFactor_le_one parse hours articles hh hnn
    have d1 := diversityFactor_nonneg articles
    have d2 := diversityFactor_le_one articles
    norm_num
    constructor <;> nlinarith

/-! ## Helper lemmas: membership in the trend and spike result lists -/

theorem mem_analyze_trending_topics (parse : String → Option ℚ)
    (articles : List NewsArticle) (hours min_mentions : ℕ) (t : TrendData) :
    t ∈ analyze_trending_topics parse articles hours min_mentions ↔
      ∃ kw ∈ allKeywords articles,
        min_mentions ≤ (keywordGroup articles kw).length ∧
          t = mkTrendData parse articles hours kw := by
  rw [analyze_trending_topics]
  by_cases h : articles = []
  · subst h
    simp [allKeywords, dedupFirst, dedupFirstAux]
  · rw [if_neg h, (stableSortDesc_perm _ _).mem_iff, List.mem_filterMap]
    constructor
    · rintro ⟨kw, hkw, hf⟩
      by_cases hmm : min_mentions ≤ (keywordGroup articles kw).length
      · rw [if_pos hmm] at hf
        cases hf
        exact ⟨kw, hkw, hmm, rfl⟩
      · rw [if_neg hmm] at hf; cases hf
    · rintro ⟨kw, hkw, hmm, rfl⟩
      exact ⟨kw, hkw, by rw [if_pos hmm]⟩

theorem mem_detect_news_spikes (recent historical : List NewsArticle)
    (hours comparison_hours : ℕ) (nowS : String) (i : NewsInsight) :
    i ∈ detect_news_spikes recent historical hours comparison_hours nowS ↔
      ¬(recent = [] ∨ historical = []) ∧
      ∃ kw ∈ allKeywords recent,
        (0 : ℚ) < (keywordCount historical kw : ℚ) / (comparison_hours : ℚ) ∧
        2 < ((keywordCount recent kw : ℚ) / (hours : ℚ)) /
              ((keywordCount historical kw : ℚ) / (comparison_hours : ℚ)) ∧
        3 ≤ keywordCount recent kw ∧
        i = mkSpikeInsight kw (keywordCount recent kw) (keywordCount historical kw)
              hours comparison_hours
              (((keywordCount recent kw : ℚ) / (hours : ℚ)) /
                ((keywordCount historical kw : ℚ) / (comparison_hours : ℚ))) nowS := by
  rw [detect_news_spikes]
  by_cases hg : recent = [] ∨ historical = []
  · rw [if_pos hg]
    simp [hg]
  · rw [if_neg hg, (stableSortDesc_perm _ _).mem_iff, List.mem_filterMap]
    simp only [hg, not_false_iff, true_and]
    constructor
    · rintro ⟨kw, hkw, hf⟩
      by_cases h1 : (0 : ℚ) < (keywordCount historical kw : ℚ) / (comparison_hours : ℚ)
      · rw [if_pos h1] at hf
        by_cases h2 : 2 < ((keywordCount recent kw : ℚ) / (hours : ℚ)) /
              ((keywordCount historical kw : ℚ) / (comparison_hours : ℚ)) ∧
            3 ≤ keywordCount recent kw
        · rw [if_pos h2] at hf
          cases hf
          exact ⟨kw, hkw, h1, h2.1, h2.2, rfl⟩
        · rw [if_neg h2] at hf; cases hf
      · rw [if_neg h1] at hf; cases hf
    · rintro ⟨kw, hkw, h1, h2, h3, rfl⟩
      refine ⟨kw, hkw, ?_⟩
      rw [if_pos h1, if_pos ⟨h2, h3⟩]

/-! ## C1: trend-score formula and bounds -/

/-- C1 (amended): every `TrendData` returned by `analyze_trending_topics`
over a non-empty article window has
`trend_score = frequency·0.4 + recency·0.4 + source_diversity·0.2`, with
frequency = min(count/10, 1), source_diversity = min(distinct_sources/5, 1)
and recency the mean over parseable articles of
`max(0, 1 - hours_since_published/hours)` (unparseable dates contribute
nothing; recency = 0 when none parse); and, provided the window is positive
and no parseable `published` timestamp lies in the future
(hours-since-published ≥ 0 for every parseable article), the score lies in
[0, 1].  The future-date proviso is forced by the counterexample
`trend_score_exceeds_one_on_future_dated_articles`: the per-article recency
term is clamped below at 0 but not above at 1. -/
theorem analyze_trending_topics_score_formula_and_bounds
    (parse : String → Option ℚ) (articles : List NewsArticle)
    (hours min_mentions : ℕ) (hh : 0 < hours)
    (hnofut : ∀ a ∈ articles, ∀ q, parse a.published = some q → 0 ≤ q) :
    ∀ t ∈ analyze_trending_topics parse articles hours min_mentions,
      t.trend_score =
        frequencyFactor t.articles * 0.4 + recencyFactor parse hours t.articles * 0.4 +
          diversityFactor t.articles * 0.2
      ∧ 0 ≤ t.trend_score ∧ t.trend_score ≤ 1 := by
  intro t ht
  rw [mem_analyze_trending_topics] at ht
  obtain ⟨kw, hkw, hmm, rfl⟩ := ht
  have hne : keywordGroup articles kw ≠ [] := keywordGroup_ne_nil articles kw hkw
  have hsub : ∀ a ∈ keywordGroup articles kw, ∀ q, parse a.published = some q → 0 ≤ q :=
    fun a ha => hnofut a ((mem_keywordGroup articles kw a).mp ha).1
  have hbounds := calculate_trend_score_bounds parse (keywordGroup articles kw) hours hh hsub
  have hform : calculate_trend_score parse (keywordGroup articles kw) hours =
      frequencyFactor (keywordGroup articles kw) * 0.4 +
        recencyFactor parse hours (keywordGroup articles kw) * 0.4 +
        diversityFactor (keywordGroup articles kw) * 0.2 := by
    rw [calculate_trend_score, if_neg hne]
  exact ⟨hform, hbounds.1, hbounds.2⟩

/-- C1 counterexample: three articles tagged "ai" whose parseable
`published` timestamp lies 240 hours in the future pass the window filter
and produce a returned `TrendData` with `trend_score = 4.56 > 1` over a
24-hour window: the per-article recency term `max(0, 1 - hours_ago/hours)`
is `11` when `hours_ago = -240`, so recency is not clamped to [0,1] and the
claimed bound `trend_score ∈ [0,1]` fails on the code. -/
theorem trend_score_exceeds_one_on_future_dated_articles :
    (analyze_trending_topics parseFut artsFut 24 3).any
      (fun t => decide (1 < t.trend_score)) = true := by
  have e : analyze_trending_topics parseFut artsFut 24 3 =
      [mkTrendData parseFut artsFut 24 "ai"] := rfl
  have hscore : (mkTrendData parseFut artsFut 24 "ai").trend_score = 114/25 := by
    show calculate_trend_score parseFut (keywordGroup artsFut "ai") 24 = 114/25
    rw [show keywordGroup artsFut "ai" = artsFut from rfl, calculate_trend_score,
      if_neg (by simp [artsFut])]
    have hfreq : frequencyFactor artsFut = 3/10 := by
      rw [frequencyFactor, show artsFut.length = 3 from rfl, min_def]
      norm_num
    have hdiv : diversityFactor artsFut = 1/5 := by
      rw [diversityFactor, show (dedupFirst (artsFut.map (·.source))).length = 1 from rfl,
        min_def]
      norm_num
    have helem : max (0 : ℚ) (1 - (-240) / ((24 : ℕ) : ℚ)) = 11 := by
      rw [max_eq_right (by norm_num)]
      norm_num
    have hrec : recencyFactor parseFut 24 artsFut = 11 := by
      rw [recencyFactor,
        show recencyScores parseFut 24 artsFut =
          [max 0 (1 - (-240) / ((24 : ℕ) : ℚ)), max 0 (1 - (-240) / ((24 : ℕ) : ℚ)),
            max 0 (1 - (-240) / ((24 : ℕ) : ℚ))] from rfl]
      rw [if_neg (by simp)]
      simp only [List.sum_cons, List.sum_nil, List.length_cons, List.length_nil, helem]
      norm_num
    rw [hfreq, hdiv, hrec]
    norm_num
  refine List.any_eq_true.mpr
    ⟨mkTrendData parseFut artsFut 24 "ai", ?_, decide_eq_true ?_⟩
  · rw [e]; exact List.mem_singleton_self _
  · rw [hscore]; norm_num

/-- C1 witness: the bound theorem applied to the concrete three-article
"ai" window (no parseable dates, 24-hour window). -/
theorem analyze_trending_topics_score_bounds_witness :
    0 ≤ (mkTrendData parseNone artsAi3 24 "ai").trend_score ∧
      (mkTrendData parseNone artsAi3 24 "ai").trend_score ≤ 1 := by
  have hmem : mkTrendData parseNone artsAi3 24 "ai" ∈
      analyze_trending_topics parseNone artsAi3 24 3 := by
    rw [show analyze_trending_topics parseNone artsAi3 24 3 =
      [mkTrendData parseNone artsAi3 24 "ai"] from rfl]
    exact List.mem_singleton_self _
  have hfut : ∀ a ∈ artsAi3, ∀ q, parseNone a.published = some q → 0 ≤ q := by
    intro a ha q hq
    simp [parseNone] at hq
  have h := analyze_trending_topics_score_formula_and_bounds parseNone artsAi3 24 3
    (by norm_num) hfut _ hmem
  exact ⟨h.2.1, h.2.2⟩

/-! ## C4: the `min_mentions` threshold -/

/-- C4: `analyze_trending_topics(hours, min_mentions = k)` never returns a
`TrendData` whose article group has fewer than `k` articles (both the
`count` field and the length of the `articles` list are ≥ k); and whenever
the whole window holds fewer than `k` articles — in particular a single
article with `k = 3` — the result is the empty list. -/
theorem analyze_trending_topics_min_mentions (parse : String → Option ℚ)
    (articles : List NewsArticle) (hours min_mentions : ℕ) :
    (∀ t ∈ analyze_trending_topics parse articles hours min_mentions,
        min_mentions ≤ t.count ∧ min_mentions ≤ t.articles.length)
    ∧ (articles.length < min_mentions →
        analyze_trending_topics parse articles hours min_mentions = []) := by
  constructor
  · intro t ht
    rw [mem_analyze_trending_topics] at ht
    obtain ⟨kw, hkw, hmm, rfl⟩ := ht
    simp only [mkTrendData]
    exact ⟨hmm, hmm⟩
  · intro hlt
    rw [analyze_trending_topics]
    by_cases h : articles = []
    · rw [if_pos h]
    · rw [if_neg h]
      have hall : ∀ kw ∈ allKeywords articles,
          (if min_mentions ≤ (keywordGroup articles kw).length then
            some (mkTrendData parse articles hours kw)
          else none) = none := by
        intro kw _
        rw [if_neg]
        intro hle
        exact absurd (le_trans hle (List.length_filter_le _ _)) (not_le.mpr hlt)
      rw [List.filterMap_eq_nil_iff.mpr hall]
      rfl

/-- C4 witness: the threshold theorem applied to a concrete three-article
"ai" window (non-empty result) and to a single-article window with
`min_mentions = 3` (empty result). -/
theorem analyze_trending_topics_min_mentions_witness :
    3 ≤ ((analyze_trending_topics parseNone artsAi3 24 3).headD dummyTrend).count ∧
      analyze_trending_topics parseNone artsOne 24 3 = [] := by
  have e : analyze_trending_topics parseNone artsAi3 24 3 =
      [mkTrendData parseNone artsAi3 24 "ai"] := rfl
  constructor
  · have h := (analyze_trending_topics_min_mentions parseNone artsAi3 24 3).1
      (mkTrendData parseNone artsAi3 24 "ai") (by rw [e]; exact List.mem_singleton_self _)
    rw [e]
    exact h.1
  · exact (analyze_trending_topics_min_mentions parseNone artsOne 24 3).2 (by decide)

/-! ## C2 and C3: spike detection -/

/-- C2: `detect_news_spikes` emits a spike insight for keyword `kw` exactly
when the historical count is positive, the spike ratio
`(recent_count/hours) / (historical_count/comparison_hours)` exceeds 2, and
`recent_count ≥ 3`; and every emitted insight for `kw` carries
`confidence = min(spike_ratio/10, 1)`.  Instantiated at
recent = 5 "ai" articles, historical = those 5 plus 1 older (counts 5 and 6,
windows 24 h and 168 h), the ratio is (5/24)/(6/168) = 35/6 > 2 and
5 ≥ 3, so a spike for "ai" with confidence 7/12 ≈ 0.583 is emitted
(see the witness). -/
theorem detect_news_spikes_emission (recent historical : List NewsArticle)
    (hours comparison_hours : ℕ) (nowS kw : String)
    (hh : 0 < hours) (hch : 0 < comparison_hours) :
    ((∃ i ∈ detect_news_spikes recent historical hours comparison_hours nowS,
        i.title = "News spike detected: " ++ kw) ↔
      (0 < keywordCount historical kw ∧
        2 < ((keywordCount recent kw : ℚ) / (hours : ℚ)) /
              ((keywordCount historical kw : ℚ) / (comparison_hours : ℚ)) ∧
        3 ≤ keywordCount recent kw))
    ∧ ∀ i ∈ detect_news_spikes recent historical hours comparison_hours nowS,
        i.title = "News spike detected: " ++ kw →
          i.confidence =
            min ((((keywordCount recent kw : ℚ) / (hours : ℚ)) /
                ((keywordCount historical kw : ℚ) / (comparison_hours : ℚ))) / 10) 1 := by
  have hrate : ∀ kw' : String,
      ((0 : ℚ) < (keywordCount historical kw' : ℚ) / (comparison_hours : ℚ) ↔
        0 < keywordCount historical kw') := by
    intro kw'
    constructor
    · intro h
      rcases Nat.eq_zero_or_pos (keywordCount historical kw') with h0 | h0
      · rw [h0] at h; norm_num at h
      · exact h0
    · intro h
      have h1 : (0 : ℚ) < (keywordCount historical kw' : ℚ) := by exact_mod_cast h
      have h2 : (0 : ℚ) < (comparison_hours : ℚ) := by exact_mod_cast hch
      positivity
  constructor
  · constructor
    · rintro ⟨i, hi, htitle⟩
      rw [mem_detect_news_spikes] at hi
      obtain ⟨-, kw', hkw', h1, h2, h3, rfl⟩ := hi
      have hkwkw : kw' = kw := by
        have : "News spike detected: " ++ kw' = "News spike detected: " ++ kw := htitle
        exact string_append_left_cancel this
      subst hkwkw
      exact ⟨(hrate kw').mp h1, h2, h3⟩
    · rintro ⟨h1, h2, h3⟩
      have hkw : kw ∈ allKeywords recent := by
        rw [mem_allKeywords]
        exact (keywordCount_pos recent kw).mp (lt_of_lt_of_le (by norm_num) h3)
      have hrec_ne : recent ≠ [] := by
        obtain ⟨a, ha, -⟩ := (keywordCount_pos recent kw).mp (lt_of_lt_of_le (by norm_num) h3)
        exact List.ne_nil_of_mem ha
      have hhist_ne : historical ≠ [] := by
        obtain ⟨a, ha, -⟩ := (keywordCount_pos historical kw).mp h1
        exact List.ne_nil_of_mem ha
      refine ⟨mkSpikeInsight kw (keywordCount recent kw) (keywordCount historical kw)
        hours comparison_hours
        (((keywordCount recent kw : ℚ) / (hours : ℚ)) /
          ((keywordCount historical kw : ℚ) / (comparison_hours : ℚ))) nowS, ?_, rfl⟩
      rw [mem_detect_news_spikes]
      exact ⟨by simp [hrec_ne, hhist_ne], kw, hkw, (hrate kw).mpr h1, h2, h3, rfl⟩
  · intro i hi htitle
    rw [mem_detect_news_spikes] at hi
    obtain ⟨-, kw', hkw', h1, h2, h3, rfl⟩ := hi
    have hkwkw : kw' = kw := by
      have : "News spike detected: " ++ kw' = "News spike detected: " ++ kw := htitle
      exact string_append_left_cancel this
    subst hkwkw
    rfl

/-- C2 witness: the emission theorem applied at the concrete instance of
the claim — 5 recent "ai" articles, 6 historical (overlapping window),
hours = 24, comparison = 168: a spike for "ai" with confidence 7/12. -/
theorem detect_news_spikes_emission_witness :
    (detect_news_spikes artsAi5 artsAi6 24 168 "t").any
      (fun i => decide (i.title = "News spike detected: ai" ∧ i.confidence = 7/12)) = true := by
  have hr : keywordCount artsAi5 "ai" = 5 := by decide
  have hh6 : keywordCount artsAi6 "ai" = 6 := by decide
  have thm := detect_news_spikes_emission artsAi5 artsAi6 24 168 "t" "ai"
    (by norm_num) (by norm_num)
  obtain ⟨i, hi, htitle⟩ := thm.1.mpr
    ⟨by rw [hh6]; norm_num, by rw [hr, hh6]; norm_num, by rw [hr]; norm_num⟩
  have hconf := thm.2 i hi htitle
  refine List.any_eq_true.mpr ⟨i, hi, decide_eq_true ⟨htitle, ?_⟩⟩
  rw [hconf, hr, hh6, min_def]
  norm_num

/-- C3: `detect_news_spikes` never emits an insight for a keyword whose
occurrence count in the historical (comparison) window is 0: the guard
`historical_rate > 0` makes the division branch unreachable for it. -/
theorem detect_news_spikes_zero_history (recent historical : List NewsArticle)
    (hours comparison_hours : ℕ) (nowS kw : String)
    (h0 : keywordCount historical kw = 0) :
    ∀ i ∈ detect_news_spikes recent historical hours comparison_hours nowS,
      i.title ≠ "News spike detected: " ++ kw := by
  intro i hi htitle
  rw [mem_detect_news_spikes] at hi
  obtain ⟨-, kw', hkw', h1, h2, h3, rfl⟩ := hi
  have hkwkw : kw' = kw := by
    have : "News spike detected: " ++ kw' = "News spike detected: " ++ kw := htitle
    exact string_append_left_cancel this
  subst hkwkw
  rw [h0] at h1
  norm_num at h1

/-- C3 witness: the zero-history theorem applied to 3 recent "ai" articles
against a historical window holding only one "ml" article (historical "ai"
count 0): no insight in the result is a spike for "ai". -/
theorem detect_news_spikes_zero_history_witness :
    (detect_news_spikes artsAi3 artsMl 24 168 "t").all
      (fun i => decide (i.title ≠ "News spike detected: ai")) = true :=
  List.all_eq_true.mpr fun i hi =>
    decide_eq_true
      (detect_news_spikes_zero_history artsAi3 artsMl 24 168 "t" "ai" (by decide) i hi)

/-! ## C5: the date-window inclusion heuristic -/

/-- C5: in `get_recent_articles`, an article whose `published` value is
missing/empty, or fails both the structured (`fromisoformat`) and the
secondary (`parsedate_to_datetime`) parse, is included in the result iff
`hours > 24`; an article with a parseable date is included iff the date is
at or after the `now - hours` cutoff (hours-ago ≤ hours). -/
theorem get_recent_articles_inclusion (p1 p2 : String → Option ℚ)
    (articles : List NewsArticle) (hours : ℕ) (a : NewsArticle) (ha : a ∈ articles) :
    ((a.published = "" ∨ parsedHoursAgo p1 p2 a.published = none) →
      (a ∈ get_recent_articles_filter p1 p2 hours articles ↔ 24 < hours))
    ∧ ∀ h : ℚ, a.published ≠ "" → parsedHoursAgo p1 p2 a.published = some h →
        (a ∈ get_recent_articles_filter p1 p2 hours articles ↔ h ≤ (hours : ℚ)) := by
  have hmem : a ∈ get_recent_articles_filter p1 p2 hours articles ↔
      includeRecent p1 p2 hours a = true := by
    rw [get_recent_articles_filter, (stableSortDesc_perm _ _).mem_iff, List.mem_filter]
    simp [ha]
  constructor
  · rintro (hp | hp)
    · rw [hmem, includeRecent, if_pos hp]
      simp
    · by_cases hp0 : a.published = ""
      · rw [hmem, includeRecent, if_pos hp0]
        simp
      · rw [hmem, includeRecent, if_neg hp0, hp]
        simp
  · intro h hne hsome
    rw [hmem, includeRecent, if_neg hne, hsome]
    simp

/-- C5 witness: the inclusion theorem applied to a single article with no
published date: included at `hours = 168`, excluded at `hours = 24`. -/
theorem get_recent_articles_inclusion_witness :
    artNoDate ∈ get_recent_articles_filter parseNone parseNone 168 [artNoDate] ∧
      artNoDate ∉ get_recent_articles_filter parseNone parseNone 24 [artNoDate] := by
  have h168 := (get_recent_articles_inclusion parseNone parseNone [artNoDate] 168 artNoDate
    (List.mem_singleton_self _)).1 (Or.inl rfl)
  have h24 := (get_recent_articles_inclusion parseNone parseNone [artNoDate] 24 artNoDate
    (List.mem_singleton_self _)).1 (Or.inl rfl)
  exact ⟨h168.mpr (by norm_num), fun hmem => absurd (h24.mp hmem) (by norm_num)⟩

/-! ## C6: cache reads -/

/-- C6 (amended): `read_cache` returns a record exactly when the file is a
parsed object whose timestamp is a string parsing to a naive datetime with
`now - timestamp < ttl_hours`; a missing file, unreadable JSON, a string
timestamp failing to parse, or one that is too old, all yield `none`,
indistinguishably to the caller.  However — contrary to the claim that
every structurally invalid record is a silent miss — readable JSON whose
top level is not an object raises `AttributeError`, an object whose
`"timestamp"` value is a non-string raises `TypeError` from
`datetime.fromisoformat`, and a string timestamp parsing to an
offset-aware datetime raises `TypeError` from the naive-minus-aware
subtraction `datetime.now() - cache_time`; none of these is caught by the
`except` clauses in the source (see the counterexample). -/
theorem read_cache_spec (parseTime : String → TsParse) (now ttl_hours : ℚ)
    (file : CacheFile) :
    (∀ rec' : CacheRecord,
      read_cache parseTime now ttl_hours file = .ok (some rec') ↔
        file = .record rec' ∧
          ∃ s t, recTimestampStr rec' = some s ∧ parseTime s = .naive t ∧
            now - t < ttl_hours)
    ∧ ((∃ e, read_cache parseTime now ttl_hours file = .error e) ↔
        file = .nonDict ∨
          ∃ rec', file = .record rec' ∧
            (recTimestampStr rec' = none ∨
              ∃ s, recTimestampStr rec' = some s ∧ parseTime s = .aware))
    ∧ (read_cache parseTime now ttl_hours file = .ok none ↔
        file = .missing ∨ file = .badJson ∨
          ∃ rec' s, file = .record rec' ∧ recTimestampStr rec' = some s ∧
            (parseTime s = .fail ∨
              ∃ t, parseTime s = .naive t ∧ ¬(now - t < ttl_hours))) := by
  cases file with
  | missing => refine ⟨fun rec' => ?_, ?_, ?_⟩ <;> simp [read_cache]
  | badJson => refine ⟨fun rec' => ?_, ?_, ?_⟩ <;> simp [read_cache]
  | nonDict => refine ⟨fun rec' => ?_, ?_, ?_⟩ <;> simp [read_cache]
  | record rec =>
    cases hts : recTimestampStr rec with
    | none =>
      refine ⟨fun rec' => ?_, ?_, ?_⟩ <;>
        simp only [read_cache, is_cache_valid, hts]
      · constructor
        · intro h; cases h
        · rintro ⟨hrec, s, t, hs, -, -⟩
          cases hrec
          rw [hts] at hs; cases hs
      · constructor
        · intro _
          exact Or.inr ⟨rec, rfl, Or.inl hts⟩
        · intro _
          exact ⟨"TypeError", rfl⟩
      · constructor
        · intro h; cases h
        · rintro (h | h | ⟨rec'', s, hrec, hs, -⟩)
          · cases h
          · cases h
          · cases hrec
            rw [hts] at hs; cases hs
    | some s0 =>
      cases hpt : parseTime s0 with
      | fail =>
        refine ⟨fun rec' => ?_, ?_, ?_⟩ <;>
          simp only [read_cache, is_cache_valid, hts, hpt]
        · constructor
          · intro h; cases h
          · rintro ⟨hrec, s, t, hs, hp, -⟩
            cases hrec
            rw [hts] at hs
            cases hs
            rw [hpt] at hp; cases hp
        · constructor
          · rintro ⟨e, he⟩; cases he
          · rintro (h | ⟨rec'', hrec, hn | ⟨s, hs, hp⟩⟩)
            · cases h
            · cases hrec
              rw [hts] at hn; cases hn
            · cases hrec
              rw [hts] at hs
              cases hs
              rw [hpt] at hp; cases hp
        · constructor
          · intro _
            exact Or.inr (Or.inr ⟨rec, s0, rfl, hts, Or.inl hpt⟩)
          · intro _; rfl
      | aware =>
        refine ⟨fun rec' => ?_, ?_, ?_⟩ <;>
          simp only [read_cache, is_cache_valid, hts, hpt]
        · constructor
          · intro h; cases h
          · rintro ⟨hrec, s, t, hs, hp, -⟩
            cases hrec
            rw [hts] at hs
            cases hs
            rw [hpt] at hp; cases hp
        · constructor
          · intro _
            exact Or.inr ⟨rec, rfl, Or.inr ⟨s0, hts, hpt⟩⟩
          · intro _
            exact ⟨"TypeError", rfl⟩
        · constructor
          · intro h; cases h
          · rintro (h | h | ⟨rec'', s, hrec, hs, hp | ⟨t, hp, -⟩⟩)
            · cases h
            · cases h
            · cases hrec
              rw [hts] at hs
              cases hs
              rw [hpt] at hp; cases hp
            · cases hrec
              rw [hts] at hs
              cases hs
              rw [hpt] at hp; cases hp
      | naive t0 =>
        by_cases hv : now - t0 < ttl_hours
        · refine ⟨fun rec' => ?_, ?_, ?_⟩ <;>
            simp only [read_cache, is_cache_valid, hts, hpt, decide_eq_true_eq, if_pos hv]
          · constructor
            · intro h
              cases h
              exact ⟨rfl, s0, t0, hts, hpt, hv⟩
            · rintro ⟨hrec, -⟩
              cases hrec
              rfl
          · constructor
            · rintro ⟨e, he⟩; cases he
            · rintro (h | ⟨rec'', hrec, hn | ⟨s, hs, hp⟩⟩)
              · cases h
              · cases hrec
                rw [hts] at hn; cases hn
              · cases hrec
                rw [hts] at hs
                cases hs
                rw [hpt] at hp; cases hp
          · constructor
            · intro h; cases h
            · rintro (h | h | ⟨rec'', s, hrec, hs, hp | ⟨t, hp, hvv⟩⟩)
              · cases h
              · cases h
              · cases hrec
                rw [hts] at hs
                cases hs
                rw [hpt] at hp; cases hp
              · cases hrec
                rw [hts] at hs
                cases hs
                rw [hpt] at hp
                cases hp
                exact absurd hv hvv
        · refine ⟨fun rec' => ?_, ?_, ?_⟩ <;>
            simp only [read_cache, is_cache_valid, hts, hpt, decide_eq_true_eq, if_neg hv]
          · constructor
            · intro h; cases h
            · rintro ⟨hrec, s, t, hs, hp, hvv⟩
              cases hrec
              rw [hts] at hs
              cases hs
              rw [hpt] at hp
              cases hp
              exact absurd hvv hv
          · constructor
            · rintro ⟨e, he⟩; cases he
            · rintro (h | ⟨rec'', hrec, hn | ⟨s, hs, hp⟩⟩)
              · cases h
              · cases hrec
                rw [hts] at hn; cases hn
              · cases hrec
                rw [hts] at hs
                cases hs
                rw [hpt] at hp; cases hp
          · constructor
            · intro _
              exact Or.inr (Or.inr ⟨rec, s0, rfl, hts, Or.inr ⟨t0, hpt, hv⟩⟩)
            · intro _; trivial

/-- C6 counterexample: a stored record whose `"timestamp"` value is a JSON
non-string, and a stored record whose `"timestamp"` string parses to an
offset-aware datetime, both fail structural validation, yet `read_cache`
raises `TypeError` — from `datetime.fromisoformat` on the non-string, and
from the naive-minus-aware subtraction `datetime.now() - cache_time`
respectively, neither caught by `except (ValueError, KeyError)` nor by
`except (JSONDecodeError, ValueError, KeyError)` — instead of returning
the claimed absent/`None`. -/
theorem read_cache_raises_on_malformed_timestamp :
    read_cache tsFail 0 1 (.record ⟨some .other, none⟩) = .error "TypeError" ∧
      read_cache tsAware 0 1 (.record ⟨some (.str "aw"), none⟩) = .error "TypeError" :=
  ⟨rfl, rfl⟩

/-- C6 witness: the read-characterization theorem applied to a missing
file (a miss) and to a fresh record with a naive parseable string
timestamp (a hit). -/
theorem read_cache_spec_witness :
    read_cache tsNaive 0 1 .missing = .ok none ∧
      read_cache tsNaive 0 1 (.record ⟨some (.str "ts"), none⟩) =
        .ok (some ⟨some (.str "ts"), none⟩) := by
  constructor
  · exact (read_cache_spec tsNaive 0 1 .missing).2.2.mpr (Or.inl rfl)
  · refine ((read_cache_spec tsNaive 0 1 (.record ⟨some (.str "ts"), none⟩)).1 _).mpr
      ⟨rfl, "ts", 0, rfl, ?_, by norm_num⟩
    simp [tsNaive]

/-! ## C7: serialization round trip -/

/-- C7: serializing a `FeedData` with `_serialize_feed_data` and
deserializing with `_deserialize_feed_data` yields an article list
element-wise equal by id, title and url (same length, same order) to the
original. -/
theorem serialize_deserialize_roundtrip (fd : FeedData) :
    ((deserialize_feed_data (serialize_feed_data fd)).articles).map
        (fun a => (a.id, a.title, a.url))
      = fd.articles.map (fun a => (a.id, a.title, a.url)) := by
  simp only [serialize_feed_data, deserialize_feed_data]
  rw [List.map_map, List.map_map]
  rfl

/-! ## C8: composition and ordering of `suggest_timely_topics` -/

/-- C8: `suggest_timely_topics` composes at most 5 trend suggestions, at
most 3 spike suggestions and at most 1 company suggestion; each of the top
5 trends yields a suggestion whose urgency is "high" iff its
`trend_score > 0.7` and "medium" otherwise; every spike suggestion is
"high" and the company suggestion "medium"; and the final list is the
insertion list (trends, then spikes, then company) stably sorted by
urgency rank descending — it is sorted, and within each urgency rank the
insertion order is preserved. -/
theorem suggest_timely_topics_spec (parse : String → Option ℚ)
    (getAllRecent : ℕ → List NewsArticle) (hours : ℕ) (nowS : String) :
    ((suggest_timely_topics parse getAllRecent hours nowS).countP
        (fun s => decide (s.type = "trending_topic")) ≤ 5
      ∧ (suggest_timely_topics parse getAllRecent hours nowS).countP
          (fun s => decide (s.type = "news_spike")) ≤ 3
      ∧ (suggest_timely_topics parse getAllRecent hours nowS).countP
          (fun s => decide (s.type = "company_focus")) ≤ 1)
    ∧ (∀ s ∈ suggest_timely_topics parse getAllRecent hours nowS,
        (s.type = "news_spike" → s.urgency = "high")
        ∧ (s.type = "company_focus" → s.urgency = "medium")
        ∧ (s.type = "trending_topic" → s.urgency = "high" ∨ s.urgency = "medium"))
    ∧ (∀ t ∈ (analyze_trending_topics parse (getAllRecent hours) hours 3).take 5,
        mkTrendSuggestion t ∈ suggest_timely_topics parse getAllRecent hours nowS
        ∧ (mkTrendSuggestion t).urgency =
            (if 0.7 < t.trend_score then "high" else "medium"))
    ∧ (suggest_timely_topics parse getAllRecent hours nowS).Pairwise
        (fun a b => urgencyRank b.urgency ≤ urgencyRank a.urgency)
    ∧ (∀ r : ℕ,
        (suggest_timely_topics parse getAllRecent hours nowS).filter
            (fun s => decide (urgencyRank s.urgency = r))
          = (suggestion_insertion_list parse getAllRecent hours nowS).filter
              (fun s => decide (urgencyRank s.urgency = r))) := by
  have hperm : List.Perm (suggest_timely_topics parse getAllRecent hours nowS)
      (suggestion_insertion_list parse getAllRecent hours nowS) :=
    stableSortDesc_perm _ _
  have hA_fact : ∀ s ∈ ((analyze_trending_topics parse (getAllRecent hours) hours 3).take 5).map
      mkTrendSuggestion,
      s.type = "trending_topic" ∧ (s.urgency = "high" ∨ s.urgency = "medium") := by
    intro s hs
    obtain ⟨t, -, rfl⟩ := List.mem_map.mp hs
    refine ⟨rfl, ?_⟩
    by_cases h : (0.7 : ℚ) < t.trend_score
    · exact Or.inl (by simp [mkTrendSuggestion, h])
    · exact Or.inr (by simp [mkTrendSuggestion, h])
  have hB_fact : ∀ s ∈ ((detect_news_spikes (getAllRecent hours) (getAllRecent 168)
      hours 168 nowS).take 3).map mkSpikeSuggestion,
      s.type = "news_spike" ∧ s.urgency = "high" := by
    intro s hs
    obtain ⟨i, -, rfl⟩ := List.mem_map.mp hs
    exact ⟨rfl, rfl⟩
  have hC_fact : ∀ s ∈ (match top_companies (getAllRecent hours) with
      | [] => ([] : List Suggestion)
      | c :: _ => [mkCompanySuggestion c]),
      s.type = "company_focus" ∧ s.urgency = "medium" := by
    intro s hs
    cases htc : top_companies (getAllRecent hours) with
    | nil => simp only [htc] at hs; cases hs
    | cons c cs =>
      simp only [htc] at hs
      rw [List.mem_singleton.mp hs]
      exact ⟨rfl, rfl⟩
  have hmemL : ∀ s ∈ suggestion_insertion_list parse getAllRecent hours nowS,
      s ∈ ((analyze_trending_topics parse (getAllRecent hours) hours 3).take 5).map
          mkTrendSuggestion
      ∨ s ∈ ((detect_news_spikes (getAllRecent hours) (getAllRecent 168)
          hours 168 nowS).take 3).map mkSpikeSuggestion
      ∨ s ∈ (match top_companies (getAllRecent hours) with
          | [] => ([] : List Suggestion)
          | c :: _ => [mkCompanySuggestion c]) := by
    intro s hs
    rw [suggestion_insertion_list] at hs
    rcases List.mem_append.mp hs with hs | hs
    · rcases List.mem_append.mp hs with hs | hs
      · exact Or.inl hs
      · exact Or.inr (Or.inl hs)
    · exact Or.inr (Or.inr hs)
  refine ⟨⟨?_, ?_, ?_⟩, ?_, ?_, ?_, ?_⟩
  · rw [hperm.countP_eq, suggestion_insertion_list, List.countP_append, List.countP_append]
    have hB0 : (((detect_news_spikes (getAllRecent hours) (getAllRecent 168)
        hours 168 nowS).take 3).map mkSpikeSuggestion).countP
        (fun s => decide (s.type = "trending_topic")) = 0 :=
      List.countP_eq_zero.mpr fun s hs => by simp [(hB_fact s hs).1]
    have hC0 : ((match top_companies (getAllRecent hours) with
        | [] => ([] : List Suggestion)
        | c :: _ => [mkCompanySuggestion c])).countP
        (fun (s : Suggestion) => decide (s.type = "trending_topic")) = 0 :=
      List.countP_eq_zero.mpr fun s hs => by simp [(hC_fact s hs).1]
    have hA5 : (((analyze_trending_topics parse (getAllRecent hours) hours 3).take 5).map
        mkTrendSuggestion).countP (fun s => decide (s.type = "trending_topic")) ≤ 5 := by
      refine le_trans (List.countP_le_length _) ?_
      rw [List.length_map]
      exact List.length_take_le 5 _
    rw [hB0, hC0]
    omega
  · rw [hperm.countP_eq, suggestion_insertion_list, List.countP_append, List.countP_append]
    have hA0 : (((analyze_trending_topics parse (getAllRecent hours) hours 3).take 5).map
        mkTrendSuggestion).countP (fun s => decide (s.type = "news_spike")) = 0 :=
      List.countP_eq_zero.mpr fun s hs => by simp [(hA_fact s hs).1]
    have hC0 : ((match top_companies (getAllRecent hours) with
        | [] => ([] : List Suggestion)
        | c :: _ => [mkCompanySuggestion c])).countP
        (fun (s : Suggestion) => decide (s.type = "news_spike")) = 0 :=
      List.countP_eq_zero.mpr fun s hs => by simp [(hC_fact s hs).1]
    have hB3 : (((detect_news_spikes (getAllRecent hours) (getAllRecent 168)
        hours 168 nowS).take 3).map mkSpikeSuggestion).countP
        (fun s => decide (s.type = "news_spike")) ≤ 3 := by
      refine le_trans (List.countP_le_length _) ?_
      rw [List.length_map]
      exact List.length_take_le 3 _
    rw [hA0, hC0]
    omega
  · rw [hperm.countP_eq, suggestion_insertion_list, List.countP_append, List.countP_append]
    have hA0 : (((analyze_trending_topics parse (getAllRecent hours) hours 3).take 5).map
        mkTrendSuggestion).countP (fun s => decide (s.type = "company_focus")) = 0 :=
      List.countP_eq_zero.mpr fun s hs => by simp [(hA_fact s hs).1]
    have hB0 : (((detect_news_spikes (getAllRecent hours) (getAllRecent 168)
        hours 168 nowS).take 3).map mkSpikeSuggestion).countP
        (fun s => decide (s.type = "company_focus")) = 0 :=
      List.countP_eq_zero.mpr fun s hs => by simp [(hB_fact s hs).1]
    have hC1 : ((match top_companies (getAllRecent hours) with
        | [] => ([] : List Suggestion)
        | c :: _ => [mkCompanySuggestion c])).countP
        (fun (s : Suggestion) => decide (s.type = "company_focus")) ≤ 1 := by
      cases htc : top_companies (getAllRecent hours) with
      | nil => simp [htc]
      | cons c cs => simp [htc, List.countP_cons, mkCompanySuggestion]
    rw [hA0, hB0]
    omega
  · intro s hs
    rcases hmemL s (hperm.subset hs) with hsa | hsb | hsc
    · have := hA_fact s hsa
      exact ⟨fun h => absurd (this.1.symm.trans h) (by decide),
        fun h => absurd (this.1.symm.trans h) (by decide), fun _ => this.2⟩
    · have := hB_fact s hsb
      exact ⟨fun _ => this.2, fun h => absurd (this.1.symm.trans h) (by decide),
        fun h => absurd (this.1.symm.trans h) (by decide)⟩
    · have := hC_fact s hsc
      exact ⟨fun h => absurd (this.1.symm.trans h) (by decide), fun _ => this.2,
        fun h => absurd (this.1.symm.trans h) (by decide)⟩
  · intro t ht
    constructor
    · refine hperm.mem_iff.mpr ?_
      rw [suggestion_insertion_list]
      refine List.mem_append.mpr (Or.inl (List.mem_append.mpr (Or.inl ?_)))
      exact List.mem_map_of_mem mkTrendSuggestion ht
    · rfl
  · exact stableSortDesc_pairwise _ _
  · intro r
    exact stableSortDesc_filter (fun s => urgencyRank s.urgency)
      (suggestion_insertion_list parse getAllRecent hours nowS) r

/-- C8 witness: the composition theorem applied at a concrete window
(three "ai" articles in every window). -/
theorem suggest_timely_topics_spec_witness :
    (suggest_timely_topics parseNone (fun _ => artsAi3) 24 "t").countP
        (fun s => decide (s.type = "trending_topic")) ≤ 5 ∧
      (suggest_timely_topics parseNone (fun _ => artsAi3) 24 "t").Pairwise
        (fun a b => urgencyRank b.urgency ≤ urgencyRank a.urgency) :=
  ⟨(suggest_timely_topics_spec parseNone (fun _ => artsAi3) 24 "t").1.1,
   (suggest_timely_topics_spec parseNone (fun _ => artsAi3) 24 "t").2.2.2.1⟩

/-! ## C9: company extraction -/

/-- C9: `extract_companies_from_text` returns exactly the roster names
occurring as case-sensitive substrings of the text (so a name whose casing
differs in the text is not returned), its result has no duplicates, and
empty text yields the empty list. -/
theorem extract_companies_from_text_spec :
    (∀ text c, c ∈ extract_companies_from_text text ↔
        c ∈ tech_companies ∧ strContainsSub text c = true)
    ∧ (∀ text, (extract_companies_from_text text).Nodup)
    ∧ extract_companies_from_text "" = [] := by
  refine ⟨fun text c => ?_, fun text => ?_, rfl⟩
  · rw [extract_companies_from_text]
    by_cases ht : text = ""
    · subst ht
      rw [if_pos rfl]
      simp only [List.not_mem_nil, false_iff, not_and]
      intro hc
      have hall : ∀ x ∈ tech_companies, strContainsSub "" x = false := by decide
      rw [hall c hc]
      simp
    · rw [if_neg ht, mem_dedupFirst, List.mem_filter]
  · rw [extract_companies_from_text]
    by_cases ht : text = ""
    · rw [if_pos ht]; exact List.nodup_nil
    · rw [if_neg ht]; exact nodup_dedupFirst _

/-- C9 witness: the characterization applied at concrete texts — the
exact-case roster name "Google" is found, the lower-cased text is not
matched. -/
theorem extract_companies_from_text_spec_witness :
    "Google" ∈ extract_companies_from_text "Google expands" ∧
      "Google" ∉ extract_companies_from_text "google expands" := by
  constructor
  · exact (extract_companies_from_text_spec.1 "Google expands" "Google").mpr
      ⟨by decide, by decide⟩
  · intro hmem
    have h := (extract_companies_from_text_spec.1 "google expands" "Google").mp hmem
    exact absurd h.2 (by decide)

/-! ## C10: the refresh tally invariants -/

/-- C10: once `refresh_all_feeds` has obtained the enabled-feed list, the
returned tally satisfies `successful + failed = total_feeds` and
`len(errors) = failed`: every enabled feed is attempted exactly once and
counted in exactly one bucket, with one error string per failed feed,
whatever the individual outcomes. -/
theorem refresh_all_feeds_tally (enabled : List FeedConfig)
    (fetch : FeedConfig → Option FeedData) :
    (refresh_all_feeds enabled fetch).successful + (refresh_all_feeds enabled fetch).failed
        = enabled.length
    ∧ (refresh_all_feeds enabled fetch).errors.length
        = (refresh_all_feeds enabled fetch).failed
    ∧ (refresh_all_feeds enabled fetch).total_feeds = enabled.length := by
  have key : ∀ (l : List FeedConfig) (r : RefreshResult),
      (l.foldl (refreshStep fetch) r).successful + (l.foldl (refreshStep fetch) r).failed
          = r.successful + r.failed + l.length
      ∧ (l.foldl (refreshStep fetch) r).errors.length + r.failed
          = r.errors.length + (l.foldl (refreshStep fetch) r).failed
      ∧ (l.foldl (refreshStep fetch) r).total_feeds = r.total_feeds := by
    intro l
    induction l with
    | nil => intro r; simp
    | cons fc t ih =>
      intro r
      rw [List.foldl_cons]
      obtain ⟨h1, h2, h3⟩ := ih (refreshStep fetch r fc)
      have hsf : (refreshStep fetch r fc).successful + (refreshStep fetch r fc).failed
          = r.successful + r.failed + 1 := by
        rw [refreshStep]
        cases fetch fc <;> (simp; try omega)
      have herr : (refreshStep fetch r fc).errors.length + r.failed
          = r.errors.length + (refreshStep fetch r fc).failed := by
        rw [refreshStep]
        cases fetch fc <;> (simp; try omega)
      have htot : (refreshStep fetch r fc).total_feeds = r.total_feeds := by
        rw [refreshStep]
        cases fetch fc <;> rfl
      refine ⟨?_, ?_, ?_⟩
      · rw [h1, List.length_cons]
        omega
      · omega
      · rw [h3, htot]
  obtain ⟨h1, h2, h3⟩ := key enabled
    { total_feeds := enabled.length, successful := 0, failed := 0, errors := [] }
  rw [refresh_all_feeds]
  refine ⟨?_, ?_, ?_⟩
  · simpa using h1
  · simpa using h2
  · simpa using h3
